import Mathlib

/-!
# Verification of the log correlation, filtering and timeline-layout engine

Shallow embedding of the core logic of the `cool-terraform-logviewer`
repository: the quality scoring engine (`calculateQualityScore` in
`CompetitionDashboard.jsx`), the filter engine and correlation grouper
(`applyAllFilters` and `groupEntries` in the enhanced log viewer with
filters), and the timeline layout engine (`getTimelineScale` and
`getBarStyle` in the Gantt chart component).

JavaScript falsy-coalescing (`a || b`) is modelled explicitly for each
value shape; absent object properties are modelled as `Option.none`;
JS numbers that can be `NaN` are modelled as `Option Rat` with `none`
playing the role of `NaN` (all arithmetic and `Math.min`/`Math.max`
propagate it, while `||` treats it as falsy).
-/

set_option autoImplicit false

namespace LogViewer

/-! ## Quality scoring engine

Embedding of `calculateQualityScore(stats)` from
`src/frontend/src/components/CompetitionDashboard.jsx` (lines 55-98).
The `stats` argument carries `total_entries` and the `levels.error` /
`levels.warn` counts; each may be absent (`undefined`), which the source
coalesces with `|| 1` resp. `|| 0`. -/

/-- JS `a || b` on an optional number: `undefined`, and the falsy number
`0`, fall through to `b`. -/
def jsOrInt (a : Option Int) (b : Int) : Int :=
  match a with
  | some v => if v = 0 then b else v
  | none => b

/-- Aggregate statistics record as consumed by `calculateQualityScore`:
`stats.total_entries`, `stats.levels?.error`, `stats.levels?.warn`. -/
structure StatsInput where
  total_entries : Option Int
  error : Option Int
  warn : Option Int
deriving DecidableEq

structure Breakdown where
  base_score : Int
  error_penalty : Int
  warning_penalty : Int
  error_count : Int
  warning_count : Int
  total_entries : Int
deriving DecidableEq

structure QualityScore where
  score : Int
  grade : String
  breakdown : Breakdown
  recommendations : List String
deriving DecidableEq

/-- Embedding of `calculateQualityScore` from `CompetitionDashboard.jsx`.
`Math.round` on the already-integral score is the identity and is
therefore not represented. -/
def calculateQualityScore (stats : StatsInput) : QualityScore :=
  let totalEntries : Int := jsOrInt stats.total_entries 1
  let errorCount : Int := jsOrInt stats.error 0
  let warningCount : Int := jsOrInt stats.warn 0
  let score0 : Int := 100 - errorCount * 10 - warningCount * 2
  let score : Int := max 0 (min 100 score0)
  let grade : String :=
    if score ≥ 90 then "A"
    else if score ≥ 80 then "B"
    else if score ≥ 70 then "C"
    else if score ≥ 60 then "D"
    else "F"
  let recs0 : List String :=
    (if errorCount > 0 then [s!"Fix {errorCount} configuration errors"] else []) ++
    (if warningCount > 0 then [s!"Address {warningCount} warnings"] else [])
  let recs1 : List String :=
    if recs0.length = 0 ∧ totalEntries > 0 then
      recs0 ++ ["Configuration quality is excellent!"]
    else recs0
  let recs : List String :=
    if totalEntries = 0 then
      recs1 ++ ["Upload Terraform logs to get quality assessment"]
    else recs1
  { score := score
    grade := grade
    breakdown :=
      { base_score := 100
        error_penalty := errorCount * 10
        warning_penalty := warningCount * 2
        error_count := errorCount
        warning_count := warningCount
        total_entries := totalEntries }
    recommendations := recs }

/-! ## Log entries, filter engine and correlation grouper

Embedding of `applyAllFilters` (lines 57-96) and `groupEntries`
(lines 133-141) from the enhanced log viewer with filters
(`src/unnamed/part_004`, `EnhancedLogViewerWithFilters.jsx`). -/

/-- A scalar JSON value as it occurs in an entry field or in the
open-schema `raw_data` map. `String(v)` and JS truthiness are modelled
per constructor. -/
inductive Scalar where
  | str (s : String)
  | num (n : Int)
  | boolean (b : Bool)
deriving DecidableEq

/-- JS `String(v)` for a scalar. -/
def scalarToString : Scalar → String
  | .str s => s
  | .num n => toString n
  | .boolean b => if b then "true" else "false"

/-- JS truthiness of a scalar: `""`, `0` and `false` are falsy. -/
def scalarTruthy : Scalar → Bool
  | .str s => s ≠ ""
  | .num n => n ≠ 0
  | .boolean b => b

/-- JS `a || b` on an optional scalar: `undefined` and falsy values
fall through to `b`. -/
def jsOrScalar (a : Option Scalar) (b : Scalar) : Scalar :=
  match a with
  | some v => if scalarTruthy v then v else b
  | none => b

/-- JS `a || b` on an optional string: `undefined` and the falsy `""`
fall through to `b`. -/
def jsOrStr (a : Option String) (b : String) : String :=
  match a with
  | some s => if s = "" then b else s
  | none => b

/-- A log entry as served by the backend and consumed by the viewer.
Optional backend fields that may be absent from the JSON object are
`Option`s; `raw_data` is the open-schema attribute map (a JS object,
modelled as an association list keyed by field name). -/
structure LogEntry where
  id : String
  timestamp : String
  level : String
  operation : String
  message : String
  tf_req_id : Option String
  tf_http_trans_id : Option String
  tf_rpc : Option String
  tf_resource_type : Option String
  read : Bool
  raw_data : List (String × Scalar)
deriving DecidableEq

/-- JS dynamic property access `entry[field]` restricted to the scalar-valued
well-known fields of the entry; any other name is `undefined`. -/
def entryField (e : LogEntry) (f : String) : Option Scalar :=
  if f = "id" then some (.str e.id)
  else if f = "timestamp" then some (.str e.timestamp)
  else if f = "level" then some (.str e.level)
  else if f = "operation" then some (.str e.operation)
  else if f = "message" then some (.str e.message)
  else if f = "tf_req_id" then e.tf_req_id.map .str
  else if f = "tf_http_trans_id" then e.tf_http_trans_id.map .str
  else if f = "tf_rpc" then e.tf_rpc.map .str
  else if f = "tf_resource_type" then e.tf_resource_type.map .str
  else if f = "read" then some (.boolean e.read)
  else none

/-- Lookup `entry.raw_data[field]` in the open-schema attribute map. -/
def rawLookup (e : LogEntry) (f : String) : Option Scalar :=
  (e.raw_data.find? (fun p => p.1 == f)).map Prod.snd

/-- Lower-cased character data of a string, as compared by
`a.toLowerCase()` in the source. -/
def lowerChars (s : String) : List Char :=
  s.data.map Char.toLower

/-- Does the haystack start with the needle (first argument)? -/
def startsWithSeg : List Char → List Char → Bool
  | [], _ => true
  | _ :: _, [] => false
  | c :: cs, d :: ds => c == d && startsWithSeg cs ds

/-- Does the haystack contain the needle (first argument) as a
contiguous segment? This is JS `hay.includes(needle)` on char data. -/
def containsSeg : List Char → List Char → Bool
  | needle, [] => needle.isEmpty
  | needle, d :: rest => startsWithSeg needle (d :: rest) || containsSeg needle rest

/-- JS `hay.toLowerCase().includes(need.toLowerCase())`. -/
def jsIncludesLower (hay need : String) : Bool :=
  containsSeg (lowerChars need) (lowerChars hay)

/-- The fixed filter record (`filters` state): `operation`, `level` and
`search` are the empty string when unset, `showRead` is the include-read flag. -/
structure Filters where
  operation : String
  level : String
  search : String
  showRead : Bool
deriving DecidableEq

/-- One user-defined dynamic filter `{field, value}`. -/
structure DynFilter where
  field : String
  value : String
deriving DecidableEq

/-- The dynamic-filter predicate from `applyAllFilters`: an inert filter
(empty `field` or empty `value`) matches everything; otherwise the field
is resolved as `entry[df.field] || (entry.raw_data && entry.raw_data[df.field]) || ""` (the
source uses the empty string literal)
and matched case-insensitively as a substring. -/
def dynFilterPass (e : LogEntry) (df : DynFilter) : Bool :=
  if df.field = "" ∨ df.value = "" then true
  else
    jsIncludesLower
      (scalarToString (jsOrScalar (entryField e df.field)
        (jsOrScalar (rawLookup e df.field) (.str ""))))
      df.value

/-- The search predicate: case-insensitive substring of `message`, or of
`tf_rpc` when that field is present (`entry.tf_rpc && ...`). -/
def searchPass (e : LogEntry) (search : String) : Bool :=
  jsIncludesLower e.message search ||
    (match e.tf_rpc with
     | some r => jsIncludesLower r search
     | none => false)

/-- Embedding of `applyAllFilters` from the enhanced log viewer with filters: the
fixed operation/level/search/read filters followed by the dynamic
filters, each stage applied only when active, exactly as in the source. -/
def applyAllFilters (allEntries : List LogEntry) (filters : Filters)
    (dynamicFilters : List DynFilter) : List LogEntry :=
  let f1 :=
    if filters.operation ≠ "" ∧ filters.operation ≠ "all" then
      allEntries.filter (fun e => e.operation == filters.operation)
    else allEntries
  let f2 :=
    if filters.level ≠ "" ∧ filters.level ≠ "all" then
      f1.filter (fun e => e.level == filters.level)
    else f1
  let f3 :=
    if filters.search ≠ "" then f2.filter (fun e => searchPass e filters.search)
    else f2
  let f4 := if !filters.showRead then f3.filter (fun e => !e.read) else f3
  if dynamicFilters.length > 0 then
    f4.filter (fun e => dynamicFilters.all (fun df => dynFilterPass e df))
  else f4

/-- The group key of an entry:
`entry.tf_req_id || entry.tf_http_trans_id` with the string
`"ungrouped"` as final fallback. -/
def entryGroupId (e : LogEntry) : String :=
  jsOrStr e.tf_req_id (jsOrStr e.tf_http_trans_id "ungrouped")

/-- One step of the `reduce` in `groupEntries`: append the entry to the
group of its key if that key already exists, else create the group at
the end (JS `if (!acc[groupId]) acc[groupId] = []; acc[groupId].push(entry)`;
the accumulator object is modelled as an association list in key
insertion order). -/
def updateGroup : List (String × List LogEntry) → String → LogEntry →
    List (String × List LogEntry)
  | [], k, e => [(k, [e])]
  | (k', g) :: rest, k, e =>
      if k' = k then (k', g ++ [e]) :: rest
      else (k', g) :: updateGroup rest k e

/-- Embedding of `groupEntries` from the enhanced log viewer with filters. -/
def groupEntries (entries : List LogEntry) : List (String × List LogEntry) :=
  entries.foldl (fun acc e => updateGroup acc (entryGroupId e) e) []

/-! ## Timeline layout engine

Embedding of `getTimelineScale` (lines 53-66) and `getBarStyle`
(lines 71-88) from the Gantt chart component (`src/unnamed/part_003`).
Segments carry the values of `new Date(item.start).getTime()` and
`new Date(item.end).getTime()` directly: a `JSNum`, with `none` playing
the role of `NaN` (the result of an unparseable time value). -/

/-- A JS number that may be `NaN` (`none`). -/
abbrev JSNum := Option Rat

/-- Model of `Math.min(a, b)`: `NaN` if either argument is `NaN`. -/
def jsMin (a b : JSNum) : JSNum :=
  match a, b with
  | some x, some y => some (min x y)
  | _, _ => none

/-- Model of `Math.max(a, b)`: `NaN` if either argument is `NaN`. -/
def jsMax (a b : JSNum) : JSNum :=
  match a, b with
  | some x, some y => some (max x y)
  | _, _ => none

/-- Subtraction `a - b` on JS numbers, propagating `NaN`. -/
def jsSub (a b : JSNum) : JSNum :=
  match a, b with
  | some x, some y => some (x - y)
  | _, _ => none

/-- Division `a / b` on JS numbers, propagating `NaN`. Division by zero is
modelled as `none`; both call sites divide by the scale range, which the
`|| 1` guard keeps nonzero, so that branch is unreachable there. -/
def jsDivNum (a b : JSNum) : JSNum :=
  match a, b with
  | some x, some y => if y = 0 then none else some (x / y)
  | _, _ => none

/-- Multiplication `a * c` for a constant numeric literal `c`, propagating `NaN`. -/
def jsMulC (a : JSNum) (c : Rat) : JSNum :=
  match a with
  | some x => some (x * c)
  | none => none

/-- JS `a || b` on a number: `NaN` and the falsy `0` fall through. -/
def jsOrNum (a b : JSNum) : JSNum :=
  match a with
  | some x => if x = 0 then b else some x
  | none => b

/-- Model of `Math.min(...ts)` over a spread non-empty array. -/
def jsMinList : List JSNum → JSNum
  | [] => none
  | t :: ts => ts.foldl jsMin t

/-- Model of `Math.max(...ts)` over a spread non-empty array. -/
def jsMaxList : List JSNum → JSNum
  | [] => none
  | t :: ts => ts.foldl jsMax t

/-- A Gantt segment, reduced to the fields the layout reads. `endTime`
is the JS field `end` (a reserved word in Lean). -/
structure GanttItem where
  start : JSNum
  endTime : JSNum
deriving DecidableEq

structure TimelineScale where
  min : JSNum
  max : JSNum
  range : JSNum
deriving DecidableEq

/-- The positioned geometry of one bar: the numeric percentages behind
the `left`/`width` CSS strings the source builds. -/
structure BarStyle where
  left : JSNum
  width : JSNum
deriving DecidableEq

/-- The `timestamps` array of `getTimelineScale`: every segment
contributes its start and end instants. -/
def itemTimes (filteredData : List GanttItem) : List JSNum :=
  (filteredData.map (fun item => [item.start, item.endTime])).flatten

/-- Embedding of `getTimelineScale` from the Gantt chart component. The empty case of
the source returns `new Date()` for `min`/`max` and the literal `0` for
`range`; the current instant is the `now` parameter. -/
def getTimelineScale (now : Rat) (filteredData : List GanttItem) : TimelineScale :=
  if filteredData.isEmpty then { min := some now, max := some now, range := some 0 }
  else
    let timestamps := itemTimes filteredData
    let mn := jsMinList timestamps
    let mx := jsMaxList timestamps
    { min := mn, max := mx, range := jsOrNum (jsSub mx mn) (some 1) }

/-- Embedding of `getBarStyle` from the Gantt chart component (the numeric part of
the returned style object). -/
def getBarStyle (timeline : TimelineScale) (item : GanttItem) : BarStyle :=
  { left := jsMulC (jsDivNum (jsSub item.start timeline.min) timeline.range) 100
    width := jsMax (jsMulC (jsDivNum (jsSub item.endTime item.start) timeline.range) 100)
      (some (1 / 2)) }

/-! ## Specification views and concrete inputs used by the theorems -/

/-- The keys of a list in first-encounter order: each key appears once,
at the position of its first occurrence. -/
def firstOccs : List String → List String
  | [] => []
  | k :: ks => k :: (firstOccs ks).filter (fun x => x != k)

/-- Specification view of `groupEntries`, by recursion on the first
group: the first entry opens the first group, which collects every
later entry with the same key; the remaining entries are grouped
recursively. Proven equal to `groupEntries` below. -/
def groupsSpec : List LogEntry → List (String × List LogEntry)
  | [] => []
  | e :: es =>
      (entryGroupId e, e :: es.filter (fun x => entryGroupId x == entryGroupId e)) ::
        groupsSpec (es.filter (fun x => entryGroupId x != entryGroupId e))
termination_by l => l.length
decreasing_by
  simp only [List.length_cons]
  exact Nat.lt_succ_of_le (List.length_filter_le _ es)

/-- Numeric value of a decimal digit string (meaningful only when every
character is a digit). -/
def keyToNat (s : String) : Nat :=
  s.data.foldl (fun acc c => acc * 10 + (c.toNat - 48)) 0

/-- The ECMAScript array-index test for a property key: a canonical
decimal string (no leading zero except `"0"` itself, digits only) whose
numeric value is below `2^32 - 1`. JS objects enumerate such keys
before all other string keys, in ascending numeric order. -/
def isArrayIndexKey (s : String) : Bool :=
  (match s.data with
   | [] => false
   | c :: cs => c.isDigit && cs.all Char.isDigit && (c != '0' || cs.isEmpty))
  && keyToNat s < 4294967295

/-- Insert a group into a list of groups that is ascending by numeric
key value, keeping it ascending. -/
def insertByKey (p : String × List LogEntry) :
    List (String × List LogEntry) → List (String × List LogEntry)
  | [] => [p]
  | q :: rest =>
      if keyToNat p.1 ≤ keyToNat q.1 then p :: q :: rest
      else q :: insertByKey p rest

/-- Sort groups by ascending numeric key value (insertion sort; keys
are pairwise distinct in an object, so stability is irrelevant). -/
def sortByKey : List (String × List LogEntry) → List (String × List LogEntry)
  | [] => []
  | p :: rest => insertByKey p (sortByKey rest)

/-- The enumeration order of a JS object with the given insertion-order
association list, as observed by `Object.entries`: array-index-like
keys first, in ascending numeric order, then the remaining string keys
in insertion order ([[OwnPropertyKeys]]). -/
def jsObjectEntries (assoc : List (String × List LogEntry)) :
    List (String × List LogEntry) :=
  sortByKey (assoc.filter (fun p => isArrayIndexKey p.1))
    ++ assoc.filter (fun p => !isArrayIndexKey p.1)

/-- The grouped mapping as the program observes it: the viewer renders
`Object.entries(groupedEntries)` over the object accumulated by
`groupEntries`, so group order is the JS object enumeration order of
the accumulated keys. -/
def groupEntriesView (es : List LogEntry) : List (String × List LogEntry) :=
  jsObjectEntries (groupEntries es)

/-- A minimal entry for concrete inputs: identifier, correlation id and
transport id, everything else fixed. -/
def mkEntry (id : String) (req trans : Option String) : LogEntry :=
  { id := id
    timestamp := "2024-01-01T00:00:00Z"
    level := "info"
    operation := "plan"
    message := "message " ++ id
    tf_req_id := req
    tf_http_trans_id := trans
    tf_rpc := none
    tf_resource_type := none
    read := false
    raw_data := [] }

def exX1 : LogEntry := mkEntry "e1" (some "X") none
def exX2 : LogEntry := mkEntry "e2" (some "X") none
def exY1 : LogEntry := mkEntry "e3" none (some "Y")
def exX3 : LogEntry := mkEntry "e4" (some "X") none
def exY2 : LogEntry := mkEntry "e5" none (some "Y")
def exU1 : LogEntry := mkEntry "e6" none none

/-- Entries whose correlation ids are array-index-like strings. -/
def en7 : LogEntry := mkEntry "n7" (some "7") none
def en3 : LogEntry := mkEntry "n3" (some "3") none

/-- The six-entry grouping example of the claim: three entries with
correlation id `"X"`, two with only transport id `"Y"`, one with
neither, interleaved. -/
def groupingExample : List LogEntry := [exX1, exX2, exY1, exX3, exY2, exU1]

/-- A fully inert fixed-filter record. -/
def inertFilters : Filters := { operation := "", level := "", search := "", showRead := true }

/-- A dynamic filter naming a field absent from `mkEntry` entries. -/
def dfCustom : DynFilter := { field := "custom_field", value := "x" }

/-- A dynamic filter on the well-known `level` field. -/
def dfLevel : DynFilter := { field := "level", value := "INFO" }

def segA : GanttItem := { start := some 0, endTime := some 1000 }
def segB : GanttItem := { start := some 250, endTime := some 250 }
/-- A segment whose `start` failed to parse (`NaN`). -/
def segBad : GanttItem := { start := none, endTime := some 5 }

/-- C1: for all non-negative integer inputs the score is
`clamp(100 − errorCount*10 − warningCount*2, 0, 100)` and the grade is
determined by the inclusive thresholds 90/80/70/60; in particular
`score(10, 2, 1)` yields score `78` and grade `"C"`. -/
theorem C1_score_formula_and_grades (t : Option Int) (e w : Int)
    (he : 0 ≤ e) (hw : 0 ≤ w) :
    (calculateQualityScore ⟨t, some e, some w⟩).score
        = max 0 (min 100 (100 - e * 10 - w * 2)) ∧
    ((calculateQualityScore ⟨t, some e, some w⟩).grade = "A" ↔
        90 ≤ (calculateQualityScore ⟨t, some e, some w⟩).score) ∧
    ((calculateQualityScore ⟨t, some e, some w⟩).grade = "B" ↔
        80 ≤ (calculateQualityScore ⟨t, some e, some w⟩).score ∧
        (calculateQualityScore ⟨t, some e, some w⟩).score < 90) ∧
    ((calculateQualityScore ⟨t, some e, some w⟩).grade = "C" ↔
        70 ≤ (calculateQualityScore ⟨t, some e, some w⟩).score ∧
        (calculateQualityScore ⟨t, some e, some w⟩).score < 80) ∧
    ((calculateQualityScore ⟨t, some e, some w⟩).grade = "D" ↔
        60 ≤ (calculateQualityScore ⟨t, some e, some w⟩).score ∧
        (calculateQualityScore ⟨t, some e, some w⟩).score < 70) ∧
    ((calculateQualityScore ⟨t, some e, some w⟩).grade = "F" ↔
        (calculateQualityScore ⟨t, some e, some w⟩).score < 60) ∧
    (calculateQualityScore ⟨some 10, some 2, some 1⟩).score = 78 ∧
    (calculateQualityScore ⟨some 10, some 2, some 1⟩).grade = "C" := by
  have hjs : ∀ x : Int, jsOrInt (some x) 0 = x := by
    intro x
    simp only [jsOrInt]
    split <;> omega
  have hs : (calculateQualityScore ⟨t, some e, some w⟩).score
      = max 0 (min 100 (100 - e * 10 - w * 2)) := by
    simp only [calculateQualityScore, hjs]
  have hg : (calculateQualityScore ⟨t, some e, some w⟩).grade
      = (if max 0 (min 100 (100 - e * 10 - w * 2)) ≥ 90 then "A"
         else if max 0 (min 100 (100 - e * 10 - w * 2)) ≥ 80 then "B"
         else if max 0 (min 100 (100 - e * 10 - w * 2)) ≥ 70 then "C"
         else if max 0 (min 100 (100 - e * 10 - w * 2)) ≥ 60 then "D"
         else "F") := by
    simp only [calculateQualityScore, hjs]
  refine ⟨hs, ?_, ?_, ?_, ?_, ?_, by decide, by decide⟩ <;>
    · rw [hg, hs]
      split_ifs with h1 h2 h3 h4 <;> simp <;> omega

/-- Witness for C1 at the concrete input `(10, 2, 1)`. -/
theorem C1_score_formula_and_grades_witness :
    (calculateQualityScore ⟨some 10, some 2, some 1⟩).score
        = max 0 (min 100 (100 - 2 * 10 - 1 * 2)) ∧
    (calculateQualityScore ⟨some 10, some 2, some 1⟩).score = 78 ∧
    (calculateQualityScore ⟨some 10, some 2, some 1⟩).grade = "C" := by
  have h := C1_score_formula_and_grades (some 10) 2 1 (by decide) (by decide)
  exact ⟨h.1, h.2.2.2.2.2.2⟩

/-- C8: at `stats = (0, 0, 0)` the code returns score `100` and grade
`"A"`, but its recommendations list is the positive acknowledgment, not
the no-data prompt: `total_entries || 1` coerces `0` to `1`, so the
`totalEntries === 0` branch can never fire. This theorem evaluates the
embedded code at the failing input. -/
theorem C8_no_data_prompt_unreachable :
    (calculateQualityScore ⟨some 0, some 0, some 0⟩).score = 100 ∧
    (calculateQualityScore ⟨some 0, some 0, some 0⟩).grade = "A" ∧
    (calculateQualityScore ⟨some 0, some 0, some 0⟩).recommendations
        = ["Configuration quality is excellent!"] ∧
    (calculateQualityScore ⟨some 0, some 0, some 0⟩).breakdown.total_entries = 1 := by
  decide

/-- C9 counterexample: with `errorCount = -1` and `warningCount = 30`
the code returns score `50`, while replacing the negative count by `0`
returns score `40` — negative counts are not clamped to zero before the
penalty computation, so the two results differ. -/
theorem C9_negative_counts_counterexample :
    (calculateQualityScore ⟨some 10, some (-1), some 30⟩).score = 50 ∧
    (calculateQualityScore ⟨some 10, some 0, some 30⟩).score = 40 ∧
    (calculateQualityScore ⟨some 10, some (-1), some 30⟩).score ≠
      (calculateQualityScore ⟨some 10, some 0, some 30⟩).score := by
  decide

/-- C9 amended: negative counts are passed through unclamped — the
breakdown penalties equal `count × weight` even for negative counts
(yielding negative penalties that raise the raw score) — and only the
final score is clamped into `[0, 100]`. -/
theorem C9_negative_counts_amended (t : Option Int) (e w : Int) :
    (calculateQualityScore ⟨t, some e, some w⟩).breakdown.error_penalty = e * 10 ∧
    (calculateQualityScore ⟨t, some e, some w⟩).breakdown.warning_penalty = w * 2 ∧
    (calculateQualityScore ⟨t, some e, some w⟩).breakdown.error_count = e ∧
    (calculateQualityScore ⟨t, some e, some w⟩).breakdown.warning_count = w ∧
    0 ≤ (calculateQualityScore ⟨t, some e, some w⟩).score ∧
    (calculateQualityScore ⟨t, some e, some w⟩).score ≤ 100 := by
  have hjs : ∀ x : Int, jsOrInt (some x) 0 = x := by
    intro x
    simp only [jsOrInt]
    split <;> omega
  refine ⟨?_, ?_, ?_, ?_, ?_, ?_⟩ <;> simp only [calculateQualityScore, hjs] <;>
    first
    | trivial
    | omega



lemma lowerChars_ne_nil {s : String} (h : s ≠ "") : lowerChars s ≠ [] := by
  intro hnil
  apply h
  have hdata : s.data = [] := by
    have := List.map_eq_nil_iff.mp hnil
    exact this
  cases s
  simp_all

lemma containsSeg_nil_right {needle : List Char} (h : needle ≠ []) :
    containsSeg needle [] = false := by
  cases needle with
  | nil => exact absurd rfl h
  | cons c cs => rfl

/-- C4: a filter spec all of whose clauses are inert — operation and
level unset (empty) or `"all"`, empty search text, `showRead = true`, and
every dynamic filter with an empty field or an empty value — leaves the
entry collection unchanged. -/
theorem C4_inert_filter_identity (E : List LogEntry) (fs : Filters)
    (dfs : List DynFilter)
    (hop : fs.operation = "" ∨ fs.operation = "all")
    (hlv : fs.level = "" ∨ fs.level = "all")
    (hsr : fs.search = "")
    (hrd : fs.showRead = true)
    (hdyn : ∀ df ∈ dfs, df.field = "" ∨ df.value = "") :
    applyAllFilters E fs dfs = E := by
  unfold applyAllFilters
  have h1 : ¬(fs.operation ≠ "" ∧ fs.operation ≠ "all") := by
    rcases hop with h | h <;> simp [h]
  have h2 : ¬(fs.level ≠ "" ∧ fs.level ≠ "all") := by
    rcases hlv with h | h <;> simp [h]
  have h3 : ¬(fs.search ≠ "") := by simp [hsr]
  simp only [if_neg h1, if_neg h2, if_neg h3, hrd, Bool.not_true,
    Bool.false_eq_true, if_false]
  by_cases hd : dfs.length > 0
  · rw [if_pos hd]
    apply List.filter_eq_self.mpr
    intro e _
    apply List.all_eq_true.mpr
    intro df hdf
    rcases hdyn df hdf with h | h <;> simp [dynFilterPass, h]
  · rw [if_neg hd]

/-- Witness for C4: a concrete inert spec (one dynamic filter with an
empty value) on a concrete two-entry collection. -/
theorem C4_inert_filter_identity_witness :
    applyAllFilters [exX1, exU1] inertFilters [{ field := "level", value := "" }]
      = [exX1, exU1] :=
  C4_inert_filter_identity [exX1, exU1] inertFilters [{ field := "level", value := "" }]
    (Or.inl rfl) (Or.inl rfl) rfl rfl
    (by intro df hdf; simp at hdf; simp [hdf])

/-- C5: a dynamic filter with non-empty field and value resolves the
field against the well-known fields of the entry first, falls back to the
open-schema `raw_data`, treats an absent (or falsy) field as the empty
string — so such a filter excludes the entry — matches by
case-insensitive substring, and all dynamic filters must pass (AND). -/
theorem C5_dynamic_filter_semantics (e : LogEntry) (df : DynFilter)
    (hf : df.field ≠ "") (hv : df.value ≠ "") :
    (∀ v : Scalar, entryField e df.field = some v → scalarTruthy v = true →
      dynFilterPass e df = jsIncludesLower (scalarToString v) df.value) ∧
    (∀ w : Scalar,
      (entryField e df.field = none ∨
        ∃ v, entryField e df.field = some v ∧ scalarTruthy v = false) →
      rawLookup e df.field = some w → scalarTruthy w = true →
      dynFilterPass e df = jsIncludesLower (scalarToString w) df.value) ∧
    ((entryField e df.field = none ∨
        ∃ v, entryField e df.field = some v ∧ scalarTruthy v = false) →
     (rawLookup e df.field = none ∨
        ∃ w, rawLookup e df.field = some w ∧ scalarTruthy w = false) →
      dynFilterPass e df = false) ∧
    (∀ (E : List LogEntry) (dfs : List DynFilter),
      (e ∈ applyAllFilters E inertFilters dfs ↔
        e ∈ E ∧ ∀ d ∈ dfs, dynFilterPass e d = true)) := by
  have hcond : ¬(df.field = "" ∨ df.value = "") := by simp [hf, hv]
  refine ⟨?_, ?_, ?_, ?_⟩
  · intro v hev htr
    simp [dynFilterPass, hcond, hev, jsOrScalar, htr]
  · intro w hev hraw htr
    rcases hev with hnone | ⟨v, hv', hfal⟩
    · simp [dynFilterPass, hcond, hnone, hraw, jsOrScalar, htr]
    · simp [dynFilterPass, hcond, hv', hraw, jsOrScalar, hfal, htr]
  · intro hev hraw
    have hinner : jsOrScalar (rawLookup e df.field) (.str "") = .str "" := by
      rcases hraw with h | ⟨w, hw1, hwfal⟩
      · rw [h]
        rfl
      · rw [hw1]
        simp [jsOrScalar, hwfal]
    have hres : jsOrScalar (entryField e df.field)
        (jsOrScalar (rawLookup e df.field) (.str "")) = .str "" := by
      rcases hev with h | ⟨v, hv1, hfal⟩
      · rw [h]
        exact hinner
      · rw [hv1, hinner]
        simp [jsOrScalar, hfal]
    rw [dynFilterPass, if_neg hcond, hres]
    show jsIncludesLower "" df.value = false
    unfold jsIncludesLower
    have : lowerChars "" = ([] : List Char) := rfl
    rw [this]
    exact containsSeg_nil_right (lowerChars_ne_nil hv)
  · intro E dfs
    have hident : applyAllFilters E inertFilters dfs =
        if dfs.length > 0 then
          E.filter (fun x => dfs.all (fun d => dynFilterPass x d))
        else E := by
      unfold applyAllFilters inertFilters
      norm_num
    rw [hident]
    by_cases hd : dfs.length > 0
    · rw [if_pos hd]
      simp [List.mem_filter, List.all_eq_true]
    · rw [if_neg hd]
      have : dfs = [] := List.length_eq_zero.mp (by omega)
      simp [this]

/-- Witness for C5: the filter `{field: "custom_field", value: "x"}`
names a field absent from the entry (well-known and `raw_data`) and
excludes it, while `{field: "level", value: "INFO"}` matches the
well-known `level` field case-insensitively. -/
theorem C5_dynamic_filter_semantics_witness :
    dynFilterPass exU1 dfCustom = false ∧
    dynFilterPass exU1 dfLevel
      = jsIncludesLower (scalarToString (.str "info")) "INFO" ∧
    (exU1 ∈ applyAllFilters [exU1] inertFilters [dfCustom] ↔
      exU1 ∈ [exU1] ∧ ∀ d ∈ [dfCustom], dynFilterPass exU1 d = true) := by
  have h1 := C5_dynamic_filter_semantics exU1 dfCustom (by decide) (by decide)
  have h2 := C5_dynamic_filter_semantics exU1 dfLevel (by decide) (by decide)
  exact ⟨h1.2.2.1 (Or.inl (by decide)) (Or.inl (by decide)),
    h2.1 (.str "info") (by decide) (by decide),
    h1.2.2.2 [exU1] [dfCustom]⟩

/-- C2: the group key of an entry is, in priority order, its
`tf_req_id` if present and non-empty, else its `tf_http_trans_id` if
present and non-empty, else the sentinel `"ungrouped"`; the six-entry
example (three with correlation id `"X"`, two with only transport id
`"Y"`, one with neither) yields exactly the three groups `"X"` (3),
`"Y"` (2), `"ungrouped"` (1). -/
theorem C2_group_key_resolution :
    (∀ (e : LogEntry) (s : String), e.tf_req_id = some s → s ≠ "" →
      entryGroupId e = s) ∧
    (∀ (e : LogEntry) (s : String),
      (e.tf_req_id = none ∨ e.tf_req_id = some "") →
      e.tf_http_trans_id = some s → s ≠ "" → entryGroupId e = s) ∧
    (∀ e : LogEntry,
      (e.tf_req_id = none ∨ e.tf_req_id = some "") →
      (e.tf_http_trans_id = none ∨ e.tf_http_trans_id = some "") →
      entryGroupId e = "ungrouped") ∧
    groupEntries groupingExample
      = [("X", [exX1, exX2, exX3]), ("Y", [exY1, exY2]), ("ungrouped", [exU1])] := by
  refine ⟨?_, ?_, ?_, by decide⟩
  · intro e s hreq hne
    simp [entryGroupId, jsOrStr, hreq, hne]
  · intro e s hreq htrans hne
    rcases hreq with h | h <;> simp [entryGroupId, jsOrStr, h, htrans, hne]
  · intro e hreq htrans
    rcases hreq with h | h <;> rcases htrans with h' | h' <;>
      simp [entryGroupId, jsOrStr, h, h']

/-- Witness for C2 at the concrete example entries. -/
theorem C2_group_key_resolution_witness :
    entryGroupId exX1 = "X" ∧ entryGroupId exY1 = "Y" ∧
    entryGroupId exU1 = "ungrouped" := by
  have h := C2_group_key_resolution
  exact ⟨h.1 exX1 "X" (by decide) (by decide),
    h.2.1 exY1 "Y" (Or.inl (by decide)) (by decide) (by decide),
    h.2.2.1 exU1 (Or.inl (by decide)) (Or.inl (by decide))⟩
/-! ### The grouper partitions its input (C3) -/

lemma updateGroup_of_not_mem (acc : List (String × List LogEntry)) (k : String)
    (e : LogEntry) (h : k ∉ acc.map Prod.fst) :
    updateGroup acc k e = acc ++ [(k, [e])] := by
  induction acc with
  | nil => rfl
  | cons p rest ih =>
      obtain ⟨k1, g⟩ := p
      simp only [List.map_cons, List.mem_cons] at h
      push_neg at h
      simp only [updateGroup, if_neg (Ne.symm h.1)]
      rw [ih h.2]
      rfl

lemma updateGroup_of_mem (acc : List (String × List LogEntry)) (k : String)
    (e : LogEntry) (hnd : (acc.map Prod.fst).Nodup) (h : k ∈ acc.map Prod.fst) :
    updateGroup acc k e
      = acc.map (fun p => if p.1 = k then (p.1, p.2 ++ [e]) else p) := by
  induction acc with
  | nil => simp at h
  | cons p rest ih =>
      obtain ⟨k1, g⟩ := p
      simp only [List.map_cons, List.nodup_cons] at hnd
      simp only [List.map_cons, List.mem_cons] at h
      by_cases hk : k1 = k
      · subst hk
        simp only [updateGroup, if_pos rfl, List.map_cons, if_pos rfl]
        have hrest : rest.map (fun p => if p.1 = k1 then (p.1, p.2 ++ [e]) else p)
            = rest := by
          have : ∀ p ∈ rest, (if p.1 = k1 then (p.1, p.2 ++ [e]) else p) = p := by
            intro q hq
            have : q.1 ≠ k1 := by
              intro hq1
              exact hnd.1 (hq1 ▸ List.mem_map_of_mem Prod.fst hq)
            simp [this]
          calc rest.map (fun p => if p.1 = k1 then (p.1, p.2 ++ [e]) else p)
              = rest.map id := List.map_congr_left this
            _ = rest := List.map_id rest
        rw [hrest]
        simp
      · have h2 : k ∈ rest.map Prod.fst := by
          rcases h with h | h
          · exact absurd h.symm hk
          · exact h
        simp only [updateGroup, if_neg hk, List.map_cons, if_neg hk]
        rw [ih hnd.2 h2]

lemma keys_map_update (acc : List (String × List LogEntry)) (k : String)
    (e : LogEntry) :
    ((acc.map (fun p => if p.1 = k then (p.1, p.2 ++ [e]) else p)).map Prod.fst)
      = acc.map Prod.fst := by
  rw [List.map_map]
  apply List.map_congr_left
  intro p _
  by_cases hp : p.1 = k <;> simp [hp]

lemma foldl_updateGroup_char (es : List LogEntry) :
    ∀ acc : List (String × List LogEntry), (acc.map Prod.fst).Nodup →
    es.foldl (fun a e => updateGroup a (entryGroupId e) e) acc
      = acc.map (fun p => (p.1, p.2 ++ es.filter (fun x => entryGroupId x == p.1)))
        ++ groupsSpec (es.filter
            (fun x => decide (entryGroupId x ∉ acc.map Prod.fst))) := by
  induction es with
  | nil =>
      intro acc _
      simp [groupsSpec]
  | cons e es ih =>
      intro acc hnd
      rw [List.foldl_cons]
      by_cases hk : entryGroupId e ∈ acc.map Prod.fst
      · rw [updateGroup_of_mem acc _ e hnd hk]
        rw [ih _ (by rw [keys_map_update]; exact hnd)]
        congr 1
        · rw [List.map_map]
          apply List.map_congr_left
          intro p hp
          by_cases hp1 : p.1 = entryGroupId e
          · simp only [Function.comp_apply, if_pos hp1, List.filter_cons]
            have : (entryGroupId e == p.1) = true := by simp [hp1]
            simp [this, List.append_assoc]
          · simp only [Function.comp_apply, if_neg hp1, List.filter_cons]
            have : (entryGroupId e == p.1) = false := by
              simp
              exact fun h => hp1 h.symm
            simp [this]
        · rw [keys_map_update]
          simp [List.filter_cons, hk]
      · rw [updateGroup_of_not_mem acc _ e hk]
        have hnd2 : (((acc ++ [(entryGroupId e, [e])]).map Prod.fst)).Nodup := by
          rw [List.map_append]
          rw [List.nodup_append]
          exact ⟨hnd, List.nodup_singleton _, by simpa using hk⟩
        rw [ih _ hnd2]
        have hgrp : es.filter (fun x =>
            decide (entryGroupId x ∉ (acc ++ [(entryGroupId e, [e])]).map Prod.fst))
            = (es.filter (fun x =>
                decide (entryGroupId x ∉ acc.map Prod.fst))).filter
                  (fun x => entryGroupId x != entryGroupId e) := by
          rw [List.filter_filter]
          apply List.filter_congr
          intro x _
          rw [List.map_append]
          simp only [List.map_cons, List.map_nil]
          by_cases h1 : entryGroupId x ∈ acc.map Prod.fst <;>
            by_cases h2 : entryGroupId x = entryGroupId e <;>
              simp [h1, h2, List.mem_append]
        rw [hgrp]
        have hfirst : ((e :: es).filter (fun x =>
            decide (entryGroupId x ∉ acc.map Prod.fst)))
            = e :: es.filter (fun x => decide (entryGroupId x ∉ acc.map Prod.fst)) := by
          rw [List.filter_cons]
          simp [hk]
        rw [hfirst, groupsSpec]
        have hfe : (es.filter (fun x =>
            decide (entryGroupId x ∉ acc.map Prod.fst))).filter
              (fun x => entryGroupId x == entryGroupId e)
            = es.filter (fun x => entryGroupId x == entryGroupId e) := by
          rw [List.filter_filter]
          apply List.filter_congr
          intro x _
          by_cases h2 : entryGroupId x = entryGroupId e
          · simp [h2, hk]
          · simp [h2]
        rw [hfe]
        have hmapacc : acc.map (fun p =>
            (p.1, p.2 ++ (e :: es).filter (fun x => entryGroupId x == p.1)))
            = acc.map (fun p =>
              (p.1, p.2 ++ es.filter (fun x => entryGroupId x == p.1))) := by
          apply List.map_congr_left
          intro p hp
          have hne : (entryGroupId e == p.1) = false := by
            simp only [beq_eq_false_iff_ne, ne_eq]
            intro hEq
            exact hk (hEq ▸ List.mem_map_of_mem Prod.fst hp)
          rw [List.filter_cons, hne]
          simp
        rw [hmapacc, List.map_append]
        have hsing : [(entryGroupId e, [e])].map (fun p =>
            (p.1, p.2 ++ es.filter (fun x => entryGroupId x == p.1)))
            = [(entryGroupId e, e :: es.filter
                (fun x => entryGroupId x == entryGroupId e))] := by
          simp
        rw [hsing]
        simp [List.append_assoc]

lemma groupEntries_eq_groupsSpec (es : List LogEntry) :
    groupEntries es = groupsSpec es := by
  rw [groupEntries, foldl_updateGroup_char es [] (by simp)]
  simp

lemma groupsSpec_flatten_perm (es : List LogEntry) :
    (((groupsSpec es).map Prod.snd).flatten).Perm es := by
  induction es using groupsSpec.induct with
  | case1 => simp [groupsSpec]
  | case2 e es ih =>
      rw [groupsSpec]
      simp only [List.map_cons, List.flatten_cons]
      have hsplit : (es.filter (fun x => entryGroupId x == entryGroupId e)
          ++ es.filter (fun x => entryGroupId x != entryGroupId e)).Perm es := by
        have := List.filter_append_perm
          (fun x => entryGroupId x == entryGroupId e) es
        simpa [bne] using this
      exact List.Perm.trans
        (List.Perm.cons e (List.Perm.append_left _ ih))
        (List.Perm.cons e hsplit)

lemma groupsSpec_mem (es : List LogEntry) :
    ∀ p ∈ groupsSpec es, p.2.Sublist es ∧ ∀ x ∈ p.2, entryGroupId x = p.1 := by
  induction es using groupsSpec.induct with
  | case1 => simp [groupsSpec]
  | case2 e es ih =>
      rw [groupsSpec]
      intro p hp
      rcases List.mem_cons.mp hp with hp1 | hp2
      · subst hp1
        constructor
        · exact List.Sublist.cons₂ e (List.filter_sublist es)
        · intro x hx
          rcases List.mem_cons.mp hx with hx1 | hx2
          · subst hx1
            rfl
          · simpa using List.of_mem_filter hx2
      · obtain ⟨hsub, hkey⟩ := ih p hp2
        refine ⟨?_, hkey⟩
        exact List.Sublist.cons e (hsub.trans (List.filter_sublist es))

lemma map_gid_filter_bne (es : List LogEntry) (k : String) :
    (es.filter (fun x => entryGroupId x != k)).map entryGroupId
      = (es.map entryGroupId).filter (fun s => s != k) := by
  induction es with
  | nil => rfl
  | cons e es ih =>
      by_cases h : entryGroupId e != k <;>
        simp [List.filter_cons, h, ih]

lemma firstOccs_filter_bne (l : List String) (k : String) :
    firstOccs (l.filter (fun x => x != k))
      = (firstOccs l).filter (fun x => x != k) := by
  induction l with
  | nil => rfl
  | cons x xs ih =>
      by_cases hx : x = k
      · subst hx
        have h1 : ((x :: xs).filter (fun y => y != x))
            = xs.filter (fun y => y != x) := by simp [List.filter_cons]
        rw [h1, ih, firstOccs]
        rw [List.filter_cons]
        simp only [bne_self_eq_false, Bool.false_eq_true, if_false]
        rw [List.filter_filter]
        apply (List.filter_congr ?_).symm
        intro y _
        simp
      · have h1 : ((x :: xs).filter (fun y => y != k))
            = x :: xs.filter (fun y => y != k) := by simp [List.filter_cons, hx]
        rw [h1, firstOccs, firstOccs, ih]
        rw [List.filter_cons]
        have : (x != k) = true := by simp [hx]
        rw [this]
        simp only [if_pos]
        congr 1
        rw [List.filter_filter, List.filter_filter]
        apply List.filter_congr
        intro y _
        rw [Bool.and_comm]

lemma groupsSpec_keys (es : List LogEntry) :
    (groupsSpec es).map Prod.fst = firstOccs (es.map entryGroupId) := by
  induction es using groupsSpec.induct with
  | case1 => simp [groupsSpec, firstOccs]
  | case2 e es ih =>
      rw [groupsSpec]
      simp only [List.map_cons]
      rw [ih, map_gid_filter_bne, firstOccs_filter_bne, firstOccs]

lemma firstOccs_nodup (l : List String) : (firstOccs l).Nodup := by
  induction l with
  | nil => exact List.nodup_nil
  | cons x xs ih =>
      rw [firstOccs]
      refine List.nodup_cons.mpr ⟨?_, ih.filter _⟩
      intro hmem
      have := List.of_mem_filter hmem
      simp at this

/-- Partition facts for the accumulated association list itself (key
insertion order): the flattened groups are a permutation of the input,
group sizes sum to the input length, each group is a subsequence of the
input holding exactly the entries bearing its key, and the insertion
order of keys is the first-encounter order. -/
lemma groupEntries_partition (es : List LogEntry) :
    (((groupEntries es).map Prod.snd).flatten).Perm es ∧
    ((groupEntries es).map (fun p => p.2.length)).sum = es.length ∧
    (∀ p ∈ groupEntries es, p.2.Sublist es ∧ ∀ x ∈ p.2, entryGroupId x = p.1) ∧
    (groupEntries es).map Prod.fst = firstOccs (es.map entryGroupId) ∧
    ((groupEntries es).map Prod.fst).Nodup := by
  rw [groupEntries_eq_groupsSpec]
  have hlen : ((groupsSpec es).map (fun p => p.2.length)).sum = es.length := by
    have h1 := (groupsSpec_flatten_perm es).length_eq
    rw [List.length_flatten, List.map_map] at h1
    exact h1
  exact ⟨groupsSpec_flatten_perm es, hlen, groupsSpec_mem es, groupsSpec_keys es,
    by rw [groupsSpec_keys]; exact firstOccs_nodup _⟩

lemma insertByKey_perm (p : String × List LogEntry)
    (l : List (String × List LogEntry)) :
    (insertByKey p l).Perm (p :: l) := by
  induction l with
  | nil => exact List.Perm.refl _
  | cons q rest ih =>
      rw [insertByKey]
      by_cases h : keyToNat p.1 ≤ keyToNat q.1
      · rw [if_pos h]
      · rw [if_neg h]
        exact (ih.cons q).trans (List.Perm.swap p q rest)

lemma sortByKey_perm (l : List (String × List LogEntry)) :
    (sortByKey l).Perm l := by
  induction l with
  | nil => exact List.Perm.refl _
  | cons p rest ih =>
      rw [sortByKey]
      exact (insertByKey_perm p (sortByKey rest)).trans (ih.cons p)

lemma mem_insertByKey {r p : String × List LogEntry}
    {l : List (String × List LogEntry)} :
    r ∈ insertByKey p l ↔ r = p ∨ r ∈ l := by
  rw [(insertByKey_perm p l).mem_iff, List.mem_cons]

lemma pairwise_insertByKey (p : String × List LogEntry)
    (l : List (String × List LogEntry))
    (h : l.Pairwise (fun a b => keyToNat a.1 ≤ keyToNat b.1)) :
    (insertByKey p l).Pairwise (fun a b => keyToNat a.1 ≤ keyToNat b.1) := by
  induction l with
  | nil => simp [insertByKey]
  | cons q rest ih =>
      rw [insertByKey]
      rcases List.pairwise_cons.mp h with ⟨hq, hrest⟩
      by_cases hle : keyToNat p.1 ≤ keyToNat q.1
      · rw [if_pos hle]
        refine List.pairwise_cons.mpr ⟨?_, h⟩
        intro r hr
        rcases List.mem_cons.mp hr with rfl | hr2
        · exact hle
        · exact le_trans hle (hq r hr2)
      · rw [if_neg hle]
        refine List.pairwise_cons.mpr ⟨?_, ih hrest⟩
        intro r hr
        rcases mem_insertByKey.mp hr with rfl | hr2
        · omega
        · exact hq r hr2

lemma sortByKey_pairwise (l : List (String × List LogEntry)) :
    (sortByKey l).Pairwise (fun a b => keyToNat a.1 ≤ keyToNat b.1) := by
  induction l with
  | nil => exact List.Pairwise.nil
  | cons p rest ih => exact pairwise_insertByKey p (sortByKey rest) ih

lemma map_fst_filter_key (l : List (String × List LogEntry))
    (q : String → Bool) :
    (l.filter (fun x => q x.1)).map Prod.fst = (l.map Prod.fst).filter q := by
  induction l with
  | nil => rfl
  | cons x xs ih =>
      by_cases h : q x.1 <;> simp [List.filter_cons, h, ih]

lemma mem_of_mem_firstOccs {x : String} :
    ∀ {l : List String}, x ∈ firstOccs l → x ∈ l := by
  intro l
  induction l with
  | nil => simp [firstOccs]
  | cons k ks ih =>
      rw [firstOccs]
      intro hx
      rcases List.mem_cons.mp hx with rfl | hx2
      · exact List.mem_cons_self _ _
      · exact List.mem_cons_of_mem _ (ih (List.mem_of_mem_filter hx2))

lemma groupEntriesView_perm (es : List LogEntry) :
    (groupEntriesView es).Perm (groupEntries es) := by
  have h1 : (sortByKey ((groupEntries es).filter
      (fun p => isArrayIndexKey p.1))).Perm
      ((groupEntries es).filter (fun p => isArrayIndexKey p.1)) :=
    sortByKey_perm _
  have h2 := List.filter_append_perm
    (fun p => isArrayIndexKey p.1) (groupEntries es)
  exact (h1.append_right _).trans h2

/-- C3 counterexample: with the two correlation ids `"7"` then `"3"` —
both canonical array-index strings — the observed mapping enumerates
`"3"` before `"7"` (JS objects put integer-like keys first in ascending
numeric order), while first-encounter order is `"7"`, `"3"`: the
first-encounter-order conjunct of the claim fails on this input. -/
theorem C3_integer_key_order_counterexample :
    (groupEntriesView [en7, en3]).map Prod.fst = ["3", "7"] ∧
    firstOccs ([en7, en3].map entryGroupId) = ["7", "3"] ∧
    (groupEntriesView [en7, en3]).map Prod.fst
      ≠ firstOccs ([en7, en3].map entryGroupId) := by
  refine ⟨by decide, by decide, by decide⟩

/-- C3 amended: `group(E)`, as observed through the JS object holding
the groups, partitions E exactly — flattened groups are a permutation
of E (every entry in exactly one group), group sizes sum to the length
of E, each group is a subsequence of E holding exactly the entries
bearing its key, and the group keys are pairwise distinct and are
exactly the keys of E in some order — but groups appear in
first-encounter order only among non-array-index keys: array-index-like
keys (canonical decimal strings below `2^32 - 1`) are enumerated first,
in ascending numeric order. When no group key is array-index-like,
groups appear exactly in the order their key was first encountered
scanning E left to right. -/
theorem C3_group_partition_amended (es : List LogEntry) :
    (((groupEntriesView es).map Prod.snd).flatten).Perm es ∧
    ((groupEntriesView es).map (fun p => p.2.length)).sum = es.length ∧
    (∀ p ∈ groupEntriesView es,
      p.2.Sublist es ∧ ∀ x ∈ p.2, entryGroupId x = p.1) ∧
    ((groupEntriesView es).map Prod.fst).Nodup ∧
    ((groupEntriesView es).map Prod.fst).Perm
      (firstOccs (es.map entryGroupId)) ∧
    (∃ idx rest, groupEntriesView es = idx ++ rest ∧
      (∀ p ∈ idx, isArrayIndexKey p.1 = true) ∧
      idx.Pairwise (fun a b => keyToNat a.1 ≤ keyToNat b.1) ∧
      (∀ p ∈ rest, isArrayIndexKey p.1 = false) ∧
      rest.map Prod.fst = (firstOccs (es.map entryGroupId)).filter
        (fun k => !isArrayIndexKey k)) ∧
    ((∀ k ∈ es.map entryGroupId, isArrayIndexKey k = false) →
      (groupEntriesView es).map Prod.fst = firstOccs (es.map entryGroupId)) := by
  obtain ⟨hflat, hsum, hmem, hkeys, hnd⟩ := groupEntries_partition es
  have hperm := groupEntriesView_perm es
  refine ⟨?_, ?_, ?_, ?_, ?_, ?_, ?_⟩
  · exact ((hperm.map Prod.snd).flatten).trans hflat
  · rw [(hperm.map (fun p => p.2.length)).sum_eq]
    exact hsum
  · intro p hp
    exact hmem p (hperm.mem_iff.mp hp)
  · rw [(hperm.map Prod.fst).nodup_iff]
    exact hnd
  · rw [← hkeys]
    exact hperm.map Prod.fst
  · refine ⟨sortByKey ((groupEntries es).filter (fun p => isArrayIndexKey p.1)),
      (groupEntries es).filter (fun p => !isArrayIndexKey p.1), rfl, ?_, ?_, ?_, ?_⟩
    · intro p hp
      have hp2 := (sortByKey_perm _).mem_iff.mp hp
      simpa using List.of_mem_filter hp2
    · exact sortByKey_pairwise _
    · intro p hp
      have := List.of_mem_filter hp
      simpa using this
    · have hmf := map_fst_filter_key (groupEntries es)
        (fun k => !isArrayIndexKey k)
      rw [hkeys] at hmf
      exact hmf
  · intro hall
    have hA : (groupEntries es).filter (fun p => isArrayIndexKey p.1) = [] := by
      apply List.filter_eq_nil_iff.mpr
      intro p hp
      have hk : p.1 ∈ (groupEntries es).map Prod.fst :=
        List.mem_map_of_mem Prod.fst hp
      rw [hkeys] at hk
      have := hall p.1 (mem_of_mem_firstOccs hk)
      simp [this]
    have hB : (groupEntries es).filter (fun p => !isArrayIndexKey p.1)
        = groupEntries es := by
      apply List.filter_eq_self.mpr
      intro p hp
      have hk : p.1 ∈ (groupEntries es).map Prod.fst :=
        List.mem_map_of_mem Prod.fst hp
      rw [hkeys] at hk
      have := hall p.1 (mem_of_mem_firstOccs hk)
      simp [this]
    show ((jsObjectEntries (groupEntries es)).map Prod.fst) = _
    rw [jsObjectEntries, hA, hB]
    show ((sortByKey []) ++ groupEntries es).map Prod.fst = _
    rw [sortByKey]
    simpa using hkeys

/-- Witness for C3 (amended) at the six-entry grouping example, whose
keys `"X"`, `"Y"`, `"ungrouped"` are all non-array-index, so the view
keeps first-encounter order; plus a permutation and sublist instance. -/
theorem C3_group_partition_amended_witness :
    (((groupEntriesView groupingExample).map Prod.snd).flatten).Perm
      groupingExample ∧
    (groupEntriesView groupingExample).map Prod.fst
      = firstOccs (groupingExample.map entryGroupId) ∧
    [exX1, exX2, exX3].Sublist groupingExample := by
  have h := C3_group_partition_amended groupingExample
  refine ⟨h.1, h.2.2.2.2.2.2 (by decide), ?_⟩
  exact (h.2.2.1 ("X", [exX1, exX2, exX3]) (by decide)).1

/-! ### Timeline scale and bar geometry (C6, C7, C10) -/

lemma jsMinList_fold (ts : List JSNum) :
    ∀ x : Rat, (∀ t ∈ ts, ∃ q : Rat, t = some q) →
    ∃ m : Rat, ts.foldl jsMin (some x) = some m ∧ m ≤ x ∧
      (∀ t ∈ ts, ∀ q : Rat, t = some q → m ≤ q) ∧
      (m = x ∨ some m ∈ ts) := by
  induction ts with
  | nil =>
      intro x _
      exact ⟨x, rfl, le_refl x, by simp, Or.inl rfl⟩
  | cons t ts ih =>
      intro x h
      obtain ⟨q, rfl⟩ := h t (List.mem_cons_self t ts)
      obtain ⟨m, hfold, hle, hbound, hattain⟩ :=
        ih (min x q) (fun u hu => h u (List.mem_cons_of_mem _ hu))
      refine ⟨m, ?_, ?_, ?_, ?_⟩
      · simpa [jsMin] using hfold
      · exact hle.trans (min_le_left x q)
      · intro u hu q1 hq1
        rcases List.mem_cons.mp hu with h1 | h1
        · have : q1 = q := by
            rw [h1] at hq1
            exact (Option.some.inj hq1).symm
          rw [this]
          exact hle.trans (min_le_right x q)
        · exact hbound u h1 q1 hq1
      · rcases hattain with h1 | h1
        · rcases min_choice x q with h2 | h2
          · exact Or.inl (h1.trans h2)
          · exact Or.inr (by rw [h1, h2]; exact List.mem_cons_self _ _)
        · exact Or.inr (List.mem_cons_of_mem _ h1)

lemma jsMaxList_fold (ts : List JSNum) :
    ∀ x : Rat, (∀ t ∈ ts, ∃ q : Rat, t = some q) →
    ∃ m : Rat, ts.foldl jsMax (some x) = some m ∧ x ≤ m ∧
      (∀ t ∈ ts, ∀ q : Rat, t = some q → q ≤ m) ∧
      (m = x ∨ some m ∈ ts) := by
  induction ts with
  | nil =>
      intro x _
      exact ⟨x, rfl, le_refl x, by simp, Or.inl rfl⟩
  | cons t ts ih =>
      intro x h
      obtain ⟨q, rfl⟩ := h t (List.mem_cons_self t ts)
      obtain ⟨m, hfold, hle, hbound, hattain⟩ :=
        ih (max x q) (fun u hu => h u (List.mem_cons_of_mem _ hu))
      refine ⟨m, ?_, ?_, ?_, ?_⟩
      · simpa [jsMax] using hfold
      · exact (le_max_left x q).trans hle
      · intro u hu q1 hq1
        rcases List.mem_cons.mp hu with h1 | h1
        · have : q1 = q := by
            rw [h1] at hq1
            exact (Option.some.inj hq1).symm
          rw [this]
          exact (le_max_right x q).trans hle
        · exact hbound u h1 q1 hq1
      · rcases hattain with h1 | h1
        · rcases max_choice x q with h2 | h2
          · exact Or.inl (h1.trans h2)
          · exact Or.inr (by rw [h1, h2]; exact List.mem_cons_self _ _)
        · exact Or.inr (List.mem_cons_of_mem _ h1)

lemma mem_itemTimes {data : List GanttItem} {t : JSNum} :
    t ∈ itemTimes data ↔ ∃ i, i ∈ data ∧ (t = i.start ∨ t = i.endTime) := by
  simp [itemTimes]

/-- Characterization of `getTimelineScale` on a non-empty collection of
segments whose time values all parsed: `min`/`max` are attained lower
and upper bounds of all start/end instants, and `range` is `max − min`
replaced by `1` when zero. -/
lemma scale_spec (now : Rat) (data : List GanttItem) (hne : data ≠ [])
    (hnum : ∀ i ∈ data, (∃ s : Rat, i.start = some s) ∧
      (∃ e : Rat, i.endTime = some e)) :
    ∃ m M : Rat, (getTimelineScale now data).min = some m ∧
      (getTimelineScale now data).max = some M ∧
      (∀ i ∈ data, ∀ q : Rat,
        i.start = some q ∨ i.endTime = some q → m ≤ q ∧ q ≤ M) ∧
      (∃ i, i ∈ data ∧ (i.start = some m ∨ i.endTime = some m)) ∧
      (∃ i, i ∈ data ∧ (i.start = some M ∨ i.endTime = some M)) ∧
      (getTimelineScale now data).range
        = some (if M - m = 0 then 1 else M - m) ∧
      m ≤ M := by
  obtain ⟨i0, rest, rfl⟩ : ∃ i0 rest, data = i0 :: rest := by
    cases data with
    | nil => exact absurd rfl hne
    | cons a l => exact ⟨a, l, rfl⟩
  have hItems : itemTimes (i0 :: rest) = i0.start :: i0.endTime :: itemTimes rest := by
    simp [itemTimes]
  obtain ⟨⟨s0, hs0⟩, ⟨e0, he0⟩⟩ := hnum i0 (List.mem_cons_self i0 rest)
  have htail : ∀ t ∈ i0.endTime :: itemTimes rest, ∃ q : Rat, t = some q := by
    intro t ht
    rcases List.mem_cons.mp ht with rfl | ht2
    · exact ⟨e0, he0⟩
    · obtain ⟨i, hi, hio⟩ := mem_itemTimes.mp ht2
      obtain ⟨⟨si, hsi⟩, ⟨ei, hei⟩⟩ := hnum i (List.mem_cons_of_mem _ hi)
      rcases hio with rfl | rfl
      · exact ⟨si, hsi⟩
      · exact ⟨ei, hei⟩
  have hminEq : jsMinList (itemTimes (i0 :: rest))
      = (i0.endTime :: itemTimes rest).foldl jsMin i0.start := by
    rw [hItems]
    rfl
  have hmaxEq : jsMaxList (itemTimes (i0 :: rest))
      = (i0.endTime :: itemTimes rest).foldl jsMax i0.start := by
    rw [hItems]
    rfl
  obtain ⟨m, hmfold, hmle, hmbound, hmattain⟩ := jsMinList_fold _ s0 htail
  obtain ⟨M, hMfold, hMle, hMbound, hMattain⟩ := jsMaxList_fold _ s0 htail
  have hmin : jsMinList (itemTimes (i0 :: rest)) = some m := by
    rw [hminEq, hs0]
    exact hmfold
  have hmax : jsMaxList (itemTimes (i0 :: rest)) = some M := by
    rw [hmaxEq, hs0]
    exact hMfold
  have hscale : getTimelineScale now (i0 :: rest) =
      { min := some m, max := some M,
        range := jsOrNum (jsSub (some M) (some m)) (some 1) } := by
    rw [getTimelineScale]
    simp only [List.isEmpty_cons, Bool.false_eq_true, if_false]
    rw [hmin, hmax]
  have hboundAll : ∀ t ∈ itemTimes (i0 :: rest), ∀ q : Rat,
      t = some q → m ≤ q ∧ q ≤ M := by
    intro t ht q hq
    rw [hItems] at ht
    rcases List.mem_cons.mp ht with rfl | ht2
    · have : q = s0 := by
        rw [hs0] at hq
        exact (Option.some.inj hq).symm
      subst this
      exact ⟨hmle, hMle⟩
    · exact ⟨hmbound t ht2 q hq, hMbound t ht2 q hq⟩
  have hmemTimes : ∀ i ∈ i0 :: rest,
      i.start ∈ itemTimes (i0 :: rest) ∧ i.endTime ∈ itemTimes (i0 :: rest) := by
    intro i hi
    exact ⟨mem_itemTimes.mpr ⟨i, hi, Or.inl rfl⟩,
      mem_itemTimes.mpr ⟨i, hi, Or.inr rfl⟩⟩
  have hattainTime : ∀ v : Rat, some v ∈ itemTimes (i0 :: rest) →
      ∃ i, i ∈ i0 :: rest ∧ (i.start = some v ∨ i.endTime = some v) := by
    intro v hv
    obtain ⟨i, hi, hio⟩ := mem_itemTimes.mp hv
    rcases hio with h | h
    · exact ⟨i, hi, Or.inl h.symm⟩
    · exact ⟨i, hi, Or.inr h.symm⟩
  have hmmem : some m ∈ itemTimes (i0 :: rest) := by
    rw [hItems]
    rcases hmattain with h | h
    · rw [h, ← hs0]
      exact List.mem_cons_self _ _
    · exact List.mem_cons_of_mem _ h
  have hMmem : some M ∈ itemTimes (i0 :: rest) := by
    rw [hItems]
    rcases hMattain with h | h
    · rw [h, ← hs0]
      exact List.mem_cons_self _ _
    · exact List.mem_cons_of_mem _ h
  have hmM : m ≤ M := (hboundAll (some m) hmmem m rfl).2
  refine ⟨m, M, by rw [hscale], by rw [hscale], ?_, hattainTime m hmmem,
    hattainTime M hMmem, ?_, hmM⟩
  · intro i hi q hq
    obtain ⟨h1, h2⟩ := hmemTimes i hi
    rcases hq with hq | hq
    · exact hboundAll i.start h1 q hq
    · exact hboundAll i.endTime h2 q hq
  · rw [hscale]
    show jsOrNum (jsSub (some M) (some m)) (some 1) = _
    by_cases hz : M - m = 0
    · simp [jsSub, jsOrNum, hz]
    · simp [jsSub, jsOrNum, hz]

/-- C6 counterexample: on the empty segment collection the code returns
`range = 0` (the literal in the empty branch), not the floored `1` the
claim asserts for "including ... empty collections — so range is never
0". -/
theorem C6_empty_range_zero_counterexample :
    (getTimelineScale 0 []).range = some 0 := rfl

/-- C6 amended: for every NON-EMPTY segment collection whose time
values are numeric, `min` is the smallest start/end instant, `max` the
largest, and `range = max − min` floored to 1 whenever `max − min` is
zero, so `range` is never 0 for non-empty collections; the empty
collection instead yields `range = 0`. -/
theorem C6_scale_amended (now : Rat) (data : List GanttItem) (hne : data ≠ [])
    (hnum : ∀ i ∈ data, (∃ s : Rat, i.start = some s) ∧
      (∃ e : Rat, i.endTime = some e)) :
    ∃ m M : Rat, (getTimelineScale now data).min = some m ∧
      (getTimelineScale now data).max = some M ∧
      (∀ i ∈ data, ∀ q : Rat,
        i.start = some q ∨ i.endTime = some q → m ≤ q ∧ q ≤ M) ∧
      (∃ i, i ∈ data ∧ (i.start = some m ∨ i.endTime = some m)) ∧
      (∃ i, i ∈ data ∧ (i.start = some M ∨ i.endTime = some M)) ∧
      (getTimelineScale now data).range
        = some (if M - m = 0 then 1 else M - m) ∧
      (getTimelineScale now data).range ≠ some 0 := by
  obtain ⟨m, M, h1, h2, h3, h4, h5, h6, hmM⟩ := scale_spec now data hne hnum
  refine ⟨m, M, h1, h2, h3, h4, h5, h6, ?_⟩
  rw [h6]
  by_cases hz : M - m = 0
  · simp [hz]
  · simp only [hz, if_false]
    intro hcontra
    exact hz (Option.some.inj hcontra)

/-- Witness for C6 (amended) on the concrete two-segment collection
`[(0, 1000), (250, 250)]`. -/
theorem C6_scale_amended_witness :
    ∃ m M : Rat, (getTimelineScale 0 [segA, segB]).min = some m ∧
      (getTimelineScale 0 [segA, segB]).max = some M ∧
      (∀ i ∈ [segA, segB], ∀ q : Rat,
        i.start = some q ∨ i.endTime = some q → m ≤ q ∧ q ≤ M) ∧
      (∃ i, i ∈ [segA, segB] ∧ (i.start = some m ∨ i.endTime = some m)) ∧
      (∃ i, i ∈ [segA, segB] ∧ (i.start = some M ∨ i.endTime = some M)) ∧
      (getTimelineScale 0 [segA, segB]).range
        = some (if M - m = 0 then 1 else M - m) ∧
      (getTimelineScale 0 [segA, segB]).range ≠ some 0 := by
  apply C6_scale_amended 0 [segA, segB] (by simp)
  intro i hi
  rcases List.mem_cons.mp hi with rfl | hi2
  · exact ⟨⟨0, rfl⟩, ⟨1000, rfl⟩⟩
  · rcases List.mem_singleton.mp hi2 with rfl
    exact ⟨⟨250, rfl⟩, ⟨250, rfl⟩⟩

/-- C7: on a non-empty segment collection with numeric times, with the
scale computed over the collection itself, every positioned segment has
`leftPercent = (start − min) / range * 100` lying within `[0, 100]` and
`widthPercent = max((end − start) / range * 100, 0.5) ≥ 0.5`. -/
theorem C7_bar_geometry (now : Rat) (data : List GanttItem) (hne : data ≠ [])
    (hnum : ∀ i ∈ data, (∃ s : Rat, i.start = some s) ∧
      (∃ e : Rat, i.endTime = some e)) :
    ∀ i ∈ data, ∃ s e m r : Rat,
      i.start = some s ∧ i.endTime = some e ∧
      (getTimelineScale now data).min = some m ∧
      (getTimelineScale now data).range = some r ∧
      (getBarStyle (getTimelineScale now data) i).left
          = some ((s - m) / r * 100) ∧
      0 ≤ (s - m) / r * 100 ∧ (s - m) / r * 100 ≤ 100 ∧
      (getBarStyle (getTimelineScale now data) i).width
          = some (max ((e - s) / r * 100) (1 / 2)) ∧
      (1 : Rat) / 2 ≤ max ((e - s) / r * 100) (1 / 2) := by
  obtain ⟨m, M, hmin, hmax, hbound, _, _, hrange, hmM⟩ :=
    scale_spec now data hne hnum
  intro i hi
  obtain ⟨⟨s, hs⟩, ⟨e, he⟩⟩ := hnum i hi
  obtain ⟨hms, hsM⟩ := hbound i hi s (Or.inl hs)
  set r : Rat := if M - m = 0 then 1 else M - m with hrdef
  have hrpos : 0 < r := by
    rw [hrdef]
    by_cases hz : M - m = 0
    · simp [hz]
    · simp only [hz, if_false]
      have : 0 ≤ M - m := by linarith
      rcases lt_or_eq_of_le this with h | h
      · exact h
      · exact absurd h.symm hz
  have hrne : r ≠ 0 := ne_of_gt hrpos
  have hleft : (getBarStyle (getTimelineScale now data) i).left
      = some ((s - m) / r * 100) := by
    rw [getBarStyle]
    simp only [hs, hmin, hrange, ← hrdef, jsSub, jsDivNum, jsMulC]
    rw [if_neg hrne]
  have hwidth : (getBarStyle (getTimelineScale now data) i).width
      = some (max ((e - s) / r * 100) (1 / 2)) := by
    rw [getBarStyle]
    simp only [hs, he, hrange, ← hrdef, jsSub, jsDivNum, jsMulC, jsMax]
    rw [if_neg hrne]
  have hsm_nonneg : 0 ≤ s - m := by linarith
  have hsm_le_r : s - m ≤ r := by
    rw [hrdef]
    by_cases hz : M - m = 0
    · simp only [hz, if_pos]
      linarith
    · simp only [hz, if_false]
      linarith
  have hdiv01 : 0 ≤ (s - m) / r ∧ (s - m) / r ≤ 1 :=
    ⟨div_nonneg hsm_nonneg hrpos.le, (div_le_one hrpos).mpr hsm_le_r⟩
  refine ⟨s, e, m, r, hs, he, hmin, by rw [hrange], hleft, ?_, ?_, hwidth,
    le_max_right _ _⟩
  · have := hdiv01.1
    positivity
  · have h2 : (s - m) / r * 100 ≤ 1 * 100 := by
      apply mul_le_mul_of_nonneg_right hdiv01.2
      norm_num
    linarith

/-- Witness for C7 on the concrete collection `[(0, 1000), (250, 250)]`,
instantiated at the point-like segment `(250, 250)`. -/
theorem C7_bar_geometry_witness :
    ∃ s e m r : Rat,
      segB.start = some s ∧ segB.endTime = some e ∧
      (getTimelineScale 0 [segA, segB]).min = some m ∧
      (getTimelineScale 0 [segA, segB]).range = some r ∧
      (getBarStyle (getTimelineScale 0 [segA, segB]) segB).left
          = some ((s - m) / r * 100) ∧
      0 ≤ (s - m) / r * 100 ∧ (s - m) / r * 100 ≤ 100 ∧
      (getBarStyle (getTimelineScale 0 [segA, segB]) segB).width
          = some (max ((e - s) / r * 100) (1 / 2)) ∧
      (1 : Rat) / 2 ≤ max ((e - s) / r * 100) (1 / 2) := by
  apply C7_bar_geometry 0 [segA, segB] (by simp) ?_ segB (by simp)
  intro i hi
  rcases List.mem_cons.mp hi with rfl | hi2
  · exact ⟨⟨0, rfl⟩, ⟨1000, rfl⟩⟩
  · rcases List.mem_singleton.mp hi2 with rfl
    exact ⟨⟨250, rfl⟩, ⟨250, rfl⟩⟩

/-- C10: a segment with an unparseable start (`NaN`) is NOT excluded
from the scale: the `NaN` flows through `Math.min`/`Math.max`, so the
`min` and `max` of the shared scale are `NaN` and even the
`leftPercent` of the well-formed segment becomes `NaN` — the whole layout is corrupted, and no
count of skipped segments exists anywhere in the code. This theorem
evaluates the embedded code at the failing input. -/
theorem C10_nan_corrupts_layout :
    (getTimelineScale 0 [segA, segBad]).min = none ∧
    (getTimelineScale 0 [segA, segBad]).max = none ∧
    (getTimelineScale 0 [segA, segBad]).range = some 1 ∧
    (getBarStyle (getTimelineScale 0 [segA, segBad]) segA).left = none ∧
    (getBarStyle (getTimelineScale 0 [segA, segBad]) segBad).left = none ∧
    (getBarStyle (getTimelineScale 0 [segA, segBad]) segBad).width = none := by
  refine ⟨rfl, rfl, rfl, rfl, rfl, rfl⟩

end LogViewer
